import Mathlib

/-!
Verification development for the LLM-to-SQL repository.

The repository narrows a database schema to a question-relevant subset
(chess_preprocess.py) and drives a bounded generate-validate-repair loop
that turns a natural-language question into T-SQL (llm_to_query.py).

This file gives a shallow embedding of the algorithmic core:

* Python string operations used by the code (strip, split, replace,
  slicing, substring membership) are modelled character-exactly on
  `List Char`, with `String` wrappers.
* The two regular expressions of the validator and the extractor are
  modelled by explicit scanners with the exact backtracking semantics of
  the patterns involved.
* Similarity scores (floats in the code) are modelled as rationals; the
  code only compares and maximises scores, so any linear order with 0 is
  faithful.
* The external collaborators (embedding gateway, vector index, completion
  gateway) are modelled as oracle inputs: the completion gateway is a map
  from call index to returned text, the vector index search result is a
  pair of score and index lists, exactly the data the code consumes.
* Exceptions are modelled by `Option`/`Except` results.
-/

/-! ### Python string primitives on lists of characters -/

/-- The ASCII whitespace characters recognised by Python `str.strip` and
by the regex class used in the code (the code only ever meets ASCII). -/
def isPyWs (c : Char) : Bool :=
  c = ' ' || c = '\t' || c = '\n' || c = '\x0d' || c = '\x0c' || c = '\x0b'

/-- Drop leading whitespace, as the front half of Python `str.strip`. -/
def stripLeft : List Char → List Char
  | [] => []
  | c :: cs => if isPyWs c then stripLeft cs else c :: cs

/-- Drop trailing whitespace, as Python `str.rstrip`. -/
def stripRight (s : List Char) : List Char :=
  (stripLeft s.reverse).reverse

/-- Python `str.strip`: drop whitespace from both ends. -/
def stripBoth (s : List Char) : List Char :=
  stripRight (stripLeft s)

/-- Index of the first occurrence of `pat` in `s`, Python `str.find`. -/
def firstIdxOfSub (pat : List Char) : List Char → Option Nat
  | [] => if pat = [] then some 0 else none
  | c :: cs =>
    if pat.isPrefixOf (c :: cs) then some 0
    else (firstIdxOfSub pat cs).map (· + 1)

/-- Python substring membership `pat in s`. -/
def hasSub (s pat : List Char) : Bool :=
  (firstIdxOfSub pat s).isSome

/-- Fuel-driven worker for Python `str.split(pat)` (callers always pass a
nonempty separator, so fuel `s.length + 1` is ample). -/
def splitSubAux (pat : List Char) : Nat → List Char → List (List Char)
  | 0, s => [s]
  | fuel + 1, s =>
    match firstIdxOfSub pat s with
    | none => [s]
    | some i => s.take i :: splitSubAux pat fuel (s.drop (i + pat.length))

/-- Python `str.split(pat)` for a nonempty separator `pat`. -/
def splitSub (s pat : List Char) : List (List Char) :=
  splitSubAux pat (s.length + 1) s

/-- Python `str.split('\n')`. -/
def splitNl : List Char → List (List Char)
  | [] => [[]]
  | c :: cs =>
    if c = '\n' then [] :: splitNl cs
    else
      match splitNl cs with
      | s :: ss => (c :: s) :: ss
      | [] => [[c]]

/-! ### String wrappers -/

/-- Python `str.strip` on `String`. -/
def pyStrip (s : String) : String := ⟨stripBoth s.data⟩

/-- Python `str.rstrip` on `String`. -/
def pyRstrip (s : String) : String := ⟨stripRight s.data⟩

/-- Python `s.split(pat)` on `String` (nonempty `pat` at call sites). -/
def pySplit (s pat : String) : List String :=
  (splitSub s.data pat.data).map fun l => ⟨l⟩

/-- Python `pat in s` on `String`. -/
def pyContains (s pat : String) : Bool := hasSub s.data pat.data

/-- Python `s.replace(pat, rep)`: identical to `rep.join(s.split(pat))`. -/
def pyReplace (s pat rep : String) : String :=
  ⟨List.intercalate rep.data (splitSub s.data pat.data)⟩

/-- Python slice `s[:n]` for a nonnegative bound. -/
def pyTakeNat (s : String) (n : Nat) : String := ⟨s.data.take n⟩

/-- Python slice `s[:i]` for a possibly negative bound (`s[:-k]` keeps all
but the last `k` characters, clamped at the empty string). -/
def pySliceTo (s : String) (i : Int) : String :=
  if 0 ≤ i then ⟨s.data.take i.toNat⟩
  else ⟨s.data.take (s.data.length - (-i).toNat)⟩

/-- Python `'\n'.join(lines)`. -/
def joinNl : List String → String
  | [] => ""
  | [x] => x
  | x :: xs => x ++ "\n" ++ joinNl xs

/-- Python `s.upper()` (ASCII data in this code base). -/
def pyUpper (s : String) : String := ⟨s.data.map Char.toUpper⟩

/-- Python `s.lower()` (ASCII data in this code base). -/
def pyLower (s : String) : String := ⟨s.data.map Char.toLower⟩

/-- Whether `pat` is a prefix of `s` up to ASCII case. -/
def startsWithCI (pat s : List Char) : Bool :=
  (pat.map Char.toLower).isPrefixOf (s.map Char.toLower)

/-! ### Schema validator (llm_to_query.py, validate_sql_against_schema) -/

/-- The result dictionary built by `validate_sql_against_schema`. -/
structure ValidationResult where
  is_valid : Bool
  errors : List String
  warnings : List String
deriving DecidableEq, Repr

/-- Python `set.add` on an insertion-ordered model of a set of strings. -/
def addSetStr (l : List String) (x : String) : List String :=
  if x ∈ l then l else l ++ [x]

/-- Python `schema_columns[current_table] = set()`: bind the key to a fresh
empty set, keeping the key position on rebinding. -/
def setKeyCols : List (String × List String) → String → List (String × List String)
  | [], t => [(t, [])]
  | (t', v) :: m, t => if t' = t then (t, []) :: m else (t', v) :: setKeyCols m t

/-- Python `schema_columns[current_table].add(col)`; the key is always
present when the code reaches this call. -/
def addColTo : List (String × List String) → String → String → List (String × List String)
  | [], _, _ => []
  | (t', v) :: m, t, col =>
    if t' = t then (t', addSetStr v col) :: m else (t', v) :: addColTo m t col

/-- Python `line.split(c)[0]`: the text before the first `c` (the whole
line when `c` is absent). -/
def takeBeforeChar (s : String) (c : Char) : String := ⟨s.data.takeWhile (· ≠ c)⟩

/-- State of the line scanner that parses the schema text. -/
structure SchemaParseState where
  tables : List String
  columns : List (String × List String)
  current : Option String
deriving Repr

/-- One iteration of the schema-parsing loop of
`validate_sql_against_schema` (lines 77-88 of llm_to_query.py). -/
def parseSchemaLine (st : SchemaParseState) (rawLine : String) : SchemaParseState :=
  let line := pyStrip rawLine
  if ("Table ".data).isPrefixOf line.data && pyContains line ":" then
    let tablePart := pyStrip (pyReplace (takeBeforeChar line ':') "Table " "")
    { tables := addSetStr st.tables tablePart,
      columns := setKeyCols st.columns tablePart,
      current := some tablePart }
  else
    match st.current with
    | none => st
    | some ct =>
      if ct = "" then st
      else if ("- ".data).isPrefixOf line.data && pyContains line "(" then
        let columnPart := pyStrip (takeBeforeChar (pyReplace line "- " "") '(')
        { st with columns := addColTo st.columns ct columnPart }
      else st

/-- A character of the regex class `\w` (the SQL here is ASCII). -/
def isWordChar (c : Char) : Bool := c.isAlpha || c.isDigit || c = '_'

/-- Match `\s+(\w+\.?\w+)` at the head of `s`, returning the group and the
rest after the match.  Greedy/backtracking semantics of the pattern: the
first `\w+` takes a maximal run; if a dot followed by word characters
follows, they extend the group; otherwise the optional dot is dropped and
the maximal run itself is the group, which then needs length at least two
so that both `\w+` can take a character. -/
def reGroupAfterKw (s : List Char) : Option (List Char × List Char) :=
  let ws := s.takeWhile isPyWs
  if ws.isEmpty then none
  else
    let s1 := s.drop ws.length
    let run1 := s1.takeWhile isWordChar
    if run1.isEmpty then none
    else
      let s2 := s1.drop run1.length
      match s2 with
      | '.' :: s3 =>
        let run2 := s3.takeWhile isWordChar
        if run2.isEmpty then
          if run1.length ≥ 2 then some (run1, s2) else none
        else
          some (run1 ++ '.' :: run2, s3.drop run2.length)
      | _ =>
        if run1.length ≥ 2 then some (run1, s2) else none

/-- `re.finditer(kw + r'\s+(\w+\.?\w+)', s)`: left-to-right scan for
non-overlapping matches, continuing after each full match.  Fuel is the
length of the scanned text, which suffices because every step consumes at
least one character. -/
def scanMatches (kw : List Char) : Nat → List Char → List (List Char)
  | 0, _ => []
  | _ + 1, [] => []
  | fuel + 1, c :: cs =>
    if kw.isPrefixOf (c :: cs) then
      match reGroupAfterKw ((c :: cs).drop kw.length) with
      | some (g, rest) => g :: scanMatches kw fuel rest
      | none => scanMatches kw fuel cs
    else scanMatches kw fuel cs

/-- Append an error and clear the validity flag, as every error site of
the validator does. -/
def addError (r : ValidationResult) (msg : String) : ValidationResult :=
  { r with is_valid := false, errors := r.errors ++ [msg] }

/-- The set of table identifiers referenced after `FROM` and `JOIN` in the
upper-cased SQL (insertion-ordered model of the Python set). -/
def referencedTables (sqlUpper : List Char) : List String :=
  let fromMatches := scanMatches ("FROM".data) sqlUpper.length sqlUpper
  let joinMatches := scanMatches ("JOIN".data) sqlUpper.length sqlUpper
  (fromMatches ++ joinMatches).foldl (fun acc g => addSetStr acc ⟨g⟩) []

/-- The body of the loop over referenced tables: strip a `dbo.` prefix,
look for a case-insensitive substring match among the known tables, and
report an error when none exists. -/
def checkTableRef (tables : List String) (r : ValidationResult) (t : String) :
    ValidationResult :=
  let tableClean := pyStrip (pyReplace t "dbo." "")
  let found := tables.filter fun kt =>
    hasSub (pyLower kt).data (pyLower tableClean).data
  if found.isEmpty then
    addError r ("Table \x27" ++ t ++ "\x27 not found in provided schema")
  else r

/-- The body of the `try` block of `validate_sql_against_schema`: parse
the schema text, collect referenced tables, and run the three checks.
Every operation of the Python body is total, so the body always returns
normally; the `Except` type records where a raised exception would flow. -/
def validateBody (sqlQuery schemaText : String) : Except String ValidationResult :=
  let st := (splitNl schemaText.data).foldl
    (fun a l => parseSchemaLine a ⟨l⟩) ⟨[], [], none⟩
  let sqlUpper := sqlQuery.data.map Char.toUpper
  let refs := referencedTables sqlUpper
  let r : ValidationResult := ⟨true, [], []⟩
  let r := refs.foldl (checkTableRef st.tables) r
  let r := if hasSub sqlUpper ("SELECT".data) then r
    else addError r "Query does not appear to be a valid SELECT statement"
  let r := if sqlQuery.data.count '(' = sqlQuery.data.count ')' then r
    else addError r "Unmatched parentheses in query"
  Except.ok r

/-- The `except` clause of `validate_sql_against_schema`: a raised
exception becomes a single error entry with the flag cleared. -/
def catchValidation : Except String ValidationResult → ValidationResult
  | Except.ok r => r
  | Except.error e => ⟨false, ["Validation error: " ++ e], []⟩

/-- `validate_sql_against_schema` of llm_to_query.py: the guarded body
wrapped in the exception-to-error conversion. -/
def validate_sql_against_schema (sqlQuery schemaText : String) : ValidationResult :=
  catchValidation (validateBody sqlQuery schemaText)

/-! ### SQL extractor (llm_to_query.py, extract_sql_from_response) -/

/-- Content before the first closing fence, if any. -/
def fenceClose (s : List Char) : Option (List Char) :=
  match firstIdxOfSub ("```".data) s with
  | none => none
  | some i => some (s.take i)

/-- `re.search(r'```sql\s*(.*?)\s*```', response, DOTALL | IGNORECASE)`
followed by `.group(1)`: the text between the leftmost case-insensitive
`sql` fence opener that has a later closing fence and the first closing
fence after it.  The lazy group together with the surrounding greedy
whitespace matchers reduces to exactly this because a backtick is neither
whitespace nor consumable by the lazy group once `\s*` has to reach the
closing fence; the outer `.strip()` applied by the caller absorbs the
whitespace trimmed by the two `\s*`. -/
def firstSqlBlock : List Char → Option (List Char)
  | [] => none
  | c :: cs =>
    if startsWithCI ("```sql".data) (c :: cs) then
      match fenceClose ((c :: cs).drop 6) with
      | some content => some content
      | none => firstSqlBlock cs
    else firstSqlBlock cs

/-- Whether a response line makes the scanner enter SQL mode:
`line.strip().upper().startswith('SELECT')`. -/
def isSelectStart (l : List Char) : Bool :=
  ("SELECT".data).isPrefixOf ((stripBoth l).map Char.toUpper)

/-- The keyword vocabulary of the heuristic stop rule. -/
def sqlStopKeywords : List String :=
  ["SELECT", "FROM", "WHERE", "JOIN", "GROUP", "ORDER",
   "HAVING", "AND", "OR", "ON", "AS", "INNER", "LEFT", "RIGHT"]

/-- The stop rule applied to a stripped line after it was collected: it
ends the collection when the line ends with a semicolon, or is nonempty
and mentions none of the keywords. -/
def lineStops (st : List Char) : Bool :=
  (match st.getLast? with | some c => c = ';' | none => false)
  || (!st.isEmpty && !(sqlStopKeywords.any fun kw => hasSub (st.map Char.toUpper) kw.data))

/-- The line-scanning loop of `extract_sql_from_response`: collection
starts at the first line whose stripped text starts with `SELECT`
(case-insensitive), each collected line is appended before the stop rule
is checked, and the flag never resets. -/
def collectSql : List (List Char) → Bool → List (List Char)
  | [], _ => []
  | l :: ls, inSql =>
    if inSql || isSelectStart l then
      l :: (if lineStops (stripBoth l) then [] else collectSql ls true)
    else collectSql ls false

/-- `extract_sql_from_response` of llm_to_query.py: fenced block first,
then the SELECT line scan, then the whole trimmed response. -/
def extract_sql_from_response (response : String) : String :=
  match firstSqlBlock response.data with
  | some content => ⟨stripBoth content⟩
  | none =>
    match collectSql (splitNl response.data) false with
    | [] => ⟨stripBoth response.data⟩
    | ls => ⟨stripBoth (List.intercalate ['\n'] ls)⟩

/-! ### Repair loop controller (llm_to_query.py, generate_sql_from_question)

The completion gateway (`chat_once`) is abstracted as an oracle mapping
the index of the call (0-based, in call order) to the returned text; the
prompt strings built by `build_sql_prompt` and `fix_sql_with_feedback` do
not influence the control flow, so they are not modelled.  The pruned
schema that `query_schema` would return is passed in directly.  Besides
the pair the Python function returns, the embedding records the call
count, the SQL text validated at each attempt, the text returned by each
repair call, and the errors of the last validation, so that theorems can
speak about the run. -/

/-- Observable outcome of one run of the generation loop.  `raw` and
`extracted` are the two components the Python function returns; the other
fields instrument the run. -/
structure GenResult where
  raw : String
  extracted : String
  calls : Nat
  validated : List String
  repairs : List String
  lastErrors : List String
  valid : Bool
deriving DecidableEq, Repr

/-- The `for attempt in range(max_attempts)` loop.  Each iteration calls
the oracle for a fresh generation, extracts, validates; on success it
returns, on the last attempt it returns the invalid pair, and otherwise
it performs the repair call — whose result the Python code assigns to
`sql_query` and then overwrites at the top of the next iteration — and
continues.  Fuel counts the remaining iterations; fuel 0 at entry models
the `NameError` the Python fallback return would raise for
`max_attempts = 0`. -/
def genAux (oracle : Nat → String) (schemaText : String) :
    Nat → Nat → List String → List String → Option GenResult
  | 0, _, _, _ => none
  | fuel + 1, calls, vtrace, rtrace =>
    if (validate_sql_against_schema (extract_sql_from_response (oracle calls)) schemaText).is_valid then
      some ⟨oracle calls, extract_sql_from_response (oracle calls), calls + 1,
        vtrace ++ [extract_sql_from_response (oracle calls)], rtrace,
        (validate_sql_against_schema (extract_sql_from_response (oracle calls)) schemaText).errors,
        true⟩
    else if fuel = 0 then
      some ⟨oracle calls, extract_sql_from_response (oracle calls), calls + 1,
        vtrace ++ [extract_sql_from_response (oracle calls)], rtrace,
        (validate_sql_against_schema (extract_sql_from_response (oracle calls)) schemaText).errors,
        false⟩
    else
      genAux oracle schemaText fuel (calls + 2)
        (vtrace ++ [extract_sql_from_response (oracle calls)])
        (rtrace ++ [oracle (calls + 1)])

/-- `generate_sql_from_question` of llm_to_query.py over the oracle model
of the completion gateway. -/
def generate_sql_from_question (oracle : Nat → String) (schemaText : String)
    (maxAttempts : Nat) : Option GenResult :=
  genAux oracle schemaText maxAttempts 0 [] []

/-! ### CHESS pipeline data model (chess_preprocess.py)

Scores are FAISS inner products, floats in the code; the pipeline only
compares scores and takes maxima, so they are modelled as rationals. -/

/-- A retrieval result record as built by `column_filtering`: the rank and
score of the hit spread together with the metadata entry fields
(preprocess.py stores `id`, `table_schema`, `table_name`, `text` per
entry). -/
structure ColumnRecord where
  rank : Nat
  score : ℚ
  id : String
  table_schema : String
  table_name : String
  text : String
deriving DecidableEq, Repr

/-- The table identifier `f"{c['table_schema']}.{c['table_name']}"`. -/
def tidOf (c : ColumnRecord) : String := c.table_schema ++ "." ++ c.table_name

/-- A metadata entry of the vector index, as written by preprocess.py. -/
structure MetaEntry where
  id : String
  table_schema : String
  table_name : String
  text : String
deriving DecidableEq, Repr

/-- Python list indexing with negative wrap-around: `l[i]` is the `i`-th
element for `0 ≤ i`, counts from the end for negative `i`, and raises
(`none`) when out of range either way. -/
def pyGetIdx {α : Type} (l : List α) (i : Int) : Option α :=
  if 0 ≤ i then l.get? i.toNat
  else if (-i).toNat ≤ l.length then l.get? (l.length - (-i).toNat)
  else none

/-- The result-building loop of `column_filtering` (chess_preprocess.py
lines 50-60) over the data the index search returned: `scores` is `D[0]`,
`idxs` is `I[0]`, `meta` is the metadata array.  A failing lookup models
the exception the loop would raise. -/
def columnFilteringLoop (meta : List MetaEntry) (scores : List ℚ) :
    Nat → List Int → Option (List ColumnRecord)
  | _, [] => some []
  | rank, idx :: rest =>
    match pyGetIdx meta idx, scores.get? rank with
    | some m, some d =>
      (columnFilteringLoop meta scores (rank + 1) rest).map
        (fun tl => ⟨rank + 1, d, m.id, m.table_schema, m.table_name, m.text⟩ :: tl)
    | _, _ => none

/-- `column_filtering` of chess_preprocess.py, abstracted over the data
returned by the embedding gateway and the vector index search. -/
def column_filtering (meta : List MetaEntry) (scores : List ℚ)
    (idxs : List Int) : Option (List ColumnRecord) :=
  columnFilteringLoop meta scores 0 idxs

/-! ### Stable descending sort, as Python `sorted(..., reverse=True)` -/

/-- Insert `x` into a descending-sorted list, after every element with a
strictly greater key and before every element with a key less than or
equal to it; together with `sortDescBy` this reproduces the stability of
Python sorts. -/
def insertDescBy {α : Type} (key : α → ℚ) (x : α) : List α → List α
  | [] => [x]
  | y :: ys => if key x < key y then y :: insertDescBy key x ys else x :: y :: ys

/-- Stable descending insertion sort by a rational key. -/
def sortDescBy {α : Type} (key : α → ℚ) : List α → List α
  | [] => []
  | x :: xs => insertDescBy key x (sortDescBy key xs)

/-- First occurrences of the elements of a list, in order: the key
sequence of a Python dict built by inserting the list left to right. -/
def firstOccsAux (seen : List String) : List String → List String
  | [] => []
  | x :: xs => if x ∈ seen then firstOccsAux seen xs else x :: firstOccsAux (x :: seen) xs

/-- First occurrences of the elements of a list, in order. -/
def firstOccs (l : List String) : List String := firstOccsAux [] l

/-! ### Table selection (chess_preprocess.py, table_selection) -/

/-- `scores[tid] = max(scores.get(tid, 0.0), c["score"])` on an
insertion-ordered association list model of the Python dict. -/
def updScore : List (String × ℚ) → String → ℚ → List (String × ℚ)
  | [], t, s => [(t, max 0 s)]
  | (t', q) :: m, t, s =>
    if t' = t then (t', max q s) :: m else (t', q) :: updScore m t s

/-- The per-table score dict built by the loop of `table_selection`. -/
def tableScores (cols : List ColumnRecord) : List (String × ℚ) :=
  cols.foldl (fun m c => updScore m (tidOf c) c.score) []

/-- First-binding lookup in the association-list dict model. -/
def lookupQ : List (String × ℚ) → String → Option ℚ
  | [], _ => none
  | (t', q) :: m, t => if t' = t then some q else lookupQ m t

/-- `table_selection` of chess_preprocess.py: aggregate per-table scores,
sort the dict items descending by score (stably, as Python `sorted`), and
keep the first `max_tables` table identifiers. -/
def table_selection (filtered_columns : List ColumnRecord) (max_tables : Nat) : List String :=
  ((sortDescBy Prod.snd (tableScores filtered_columns)).take max_tables).map Prod.fst

/-- The scores of the columns of table `t`, in input order. -/
def scoresOf (cols : List ColumnRecord) (t : String) : List ℚ :=
  (cols.filter fun c => tidOf c = t).map ColumnRecord.score

/-- The aggregate the specification describes: the maximum of the table
column scores themselves, undefined for an absent table. -/
def specAggregate (cols : List ColumnRecord) (t : String) : Option ℚ :=
  match scoresOf cols t with
  | [] => none
  | s :: ss => some (ss.foldl max s)

/-! ### Final column filtering (chess_preprocess.py, final_column_filtering) -/

/-- `per_table[tid].append(c)`: append to the list bound to the first
occurrence of the key; no effect when the key is absent (the code only
calls it for present keys). -/
def appendCol : List (String × List ColumnRecord) → String → ColumnRecord →
    List (String × List ColumnRecord)
  | [], _, _ => []
  | (t', l) :: m, t, c =>
    if t' = t then (t', l ++ [c]) :: m else (t', l) :: appendCol m t c

/-- `final_column_filtering` of chess_preprocess.py: initialise one empty
bucket per selected table (a dict comprehension, hence first occurrences
of the keys in order), distribute the matching columns in input order,
then sort each bucket descending by score and truncate it. -/
def final_column_filtering (filtered_columns : List ColumnRecord)
    (selected_tables : List String) (max_cols_per_table : Nat) :
    List (String × List ColumnRecord) :=
  let base := filtered_columns.foldl
    (fun m c => if tidOf c ∈ selected_tables then appendCol m (tidOf c) c else m)
    ((firstOccs selected_tables).map fun t => (t, ([] : List ColumnRecord)))
  base.map fun p => (p.1, (sortDescBy ColumnRecord.score p.2).take max_cols_per_table)

/-! ### Schema block assembly (chess_preprocess.py, build_chess_schema_block) -/

/-- The marker the smart truncation splits on. -/
def columnsMarker : String := "Columns:"

/-- The notice appended by the marker-preserving branch. -/
def truncNoticeCols : String := "\n... [Schema truncated, key columns shown above]"

/-- The notice appended by the plain truncation branch. -/
def truncNoticeShort : String := "... [Schema truncated]"

/-- The marker-preserving recombination of build_chess_schema_block lines
122-133: split on the marker, rebuild the section from the first marker
and the first following segment only, keep it whole when it fits in the
budget minus 100 (truncating the header to 100 characters plus an
ellipsis when needed), and otherwise hard-truncate the whole text to the
budget minus 50 plus a notice.  The fallthrough arm is unreachable: the
caller checks that the marker occurs, so the split has at least two
parts. -/
def markerRecombine (max_char_per_table : Nat) (tableText : String) : String :=
  match pySplit tableText columnsMarker with
  | p0 :: p1 :: _ =>
    let columnsSection := columnsMarker ++ p1
    if (columnsSection.length : Int) ≤ (max_char_per_table : Int) - 100 then
      (if p0.length > 100 then pyTakeNat p0 100 ++ "..." else p0) ++ "\n" ++ columnsSection
    else
      pySliceTo tableText ((max_char_per_table : Int) - 50) ++ truncNoticeCols
  | _ => tableText

/-- The per-column-text truncation of `build_chess_schema_block`: texts
within the budget pass through unmodified; longer texts go through the
marker-preserving recombination when the marker occurs and are otherwise
hard-truncated with a notice. -/
def truncateTableText (max_char_per_table : Nat) (tableText : String) : String :=
  if tableText.length > max_char_per_table then
    if pyContains tableText columnsMarker then
      markerRecombine max_char_per_table tableText
    else
      pyTakeNat tableText max_char_per_table ++ truncNoticeShort
  else tableText

/-- `build_chess_schema_block` of chess_preprocess.py: a header line per
table, the (possibly truncated) text of each retained column, a blank
separator line per table, joined by newlines with the trailing whitespace
stripped. -/
def build_chess_schema_block (per_table_columns : List (String × List ColumnRecord))
    (max_char_per_table : Nat) : String :=
  pyRstrip (joinNl (per_table_columns.foldl
    (fun acc p =>
      acc ++ (("Table " ++ p.1 ++ ":") :: p.2.map fun c => truncateTableText max_char_per_table c.text)
        ++ [""])
    []))

/-! ### Lemmas about the stable descending sort -/

theorem mem_insertDescBy {α : Type} (key : α → ℚ) (x z : α) (l : List α) :
    z ∈ insertDescBy key x l ↔ z = x ∨ z ∈ l := by
  induction l with
  | nil => simp [insertDescBy]
  | cons y ys ih =>
    by_cases h : key x < key y
    · simp only [insertDescBy, if_pos h, List.mem_cons, ih]
      tauto
    · simp only [insertDescBy, if_neg h, List.mem_cons]

theorem mem_sortDescBy {α : Type} (key : α → ℚ) (z : α) (l : List α) :
    z ∈ sortDescBy key l ↔ z ∈ l := by
  induction l with
  | nil => simp [sortDescBy]
  | cons x xs ih =>
    simp only [sortDescBy, mem_insertDescBy, ih, List.mem_cons]

theorem sorted_insertDescBy {α : Type} (key : α → ℚ) (x : α) (l : List α)
    (h : l.Pairwise fun a b => key b ≤ key a) :
    (insertDescBy key x l).Pairwise fun a b => key b ≤ key a := by
  induction l with
  | nil => simp [insertDescBy]
  | cons y ys ih =>
    rcases List.pairwise_cons.mp h with ⟨hy, hys⟩
    by_cases hk : key x < key y
    · simp only [insertDescBy, if_pos hk]
      refine List.pairwise_cons.mpr ⟨?_, ih hys⟩
      intro z hz
      rcases (mem_insertDescBy key x z ys).mp hz with rfl | hzys
      · exact le_of_lt hk
      · exact hy z hzys
    · simp only [insertDescBy, if_neg hk]
      refine List.pairwise_cons.mpr ⟨?_, h⟩
      intro z hz
      rcases List.mem_cons.mp hz with rfl | hzys
      · exact le_of_not_lt hk
      · exact le_trans (hy z hzys) (le_of_not_lt hk)

theorem sorted_sortDescBy {α : Type} (key : α → ℚ) (l : List α) :
    (sortDescBy key l).Pairwise fun a b => key b ≤ key a := by
  induction l with
  | nil => simp [sortDescBy]
  | cons x xs ih => exact sorted_insertDescBy key x _ ih

theorem filter_insertDescBy {α : Type} (key : α → ℚ) (q : ℚ) (x : α) (l : List α)
    (h : l.Pairwise fun a b => key b ≤ key a) :
    (insertDescBy key x l).filter (fun a => decide (key a = q)) =
      if key x = q then x :: l.filter (fun a => decide (key a = q))
      else l.filter (fun a => decide (key a = q)) := by
  induction l with
  | nil =>
    by_cases hxq : key x = q <;> simp [insertDescBy, hxq]
  | cons y ys ih =>
    rcases List.pairwise_cons.mp h with ⟨_, hys⟩
    by_cases hk : key x < key y
    · by_cases hxq : key x = q
      · have hyq : ¬ key y = q := by
          intro e
          rw [hxq] at hk
          rw [e] at hk
          exact lt_irrefl q hk
        simp only [insertDescBy, if_pos hk, List.filter_cons, ih hys, if_pos hxq,
          decide_eq_true_eq]
        simp only [if_neg hyq]
      · simp only [insertDescBy, if_pos hk, List.filter_cons, ih hys, if_neg hxq,
          decide_eq_true_eq]
    · simp only [insertDescBy, if_neg hk, List.filter_cons, decide_eq_true_eq]

theorem filter_sortDescBy {α : Type} (key : α → ℚ) (q : ℚ) (l : List α) :
    (sortDescBy key l).filter (fun a => decide (key a = q)) =
      l.filter (fun a => decide (key a = q)) := by
  induction l with
  | nil => simp [sortDescBy]
  | cons x xs ih =>
    rw [sortDescBy, filter_insertDescBy key q x _ (sorted_sortDescBy key xs)]
    by_cases hxq : key x = q <;> simp [List.filter_cons, hxq, ih]

/-! ### Lemmas about first occurrences -/

theorem firstOccsAux_congr (s₁ s₂ : List String)
    (h : ∀ x, x ∈ s₁ ↔ x ∈ s₂) (l : List String) :
    firstOccsAux s₁ l = firstOccsAux s₂ l := by
  induction l generalizing s₁ s₂ with
  | nil => rfl
  | cons x xs ih =>
    by_cases hx : x ∈ s₁
    · rw [firstOccsAux, if_pos hx, firstOccsAux, if_pos ((h x).mp hx)]
      exact ih s₁ s₂ h
    · rw [firstOccsAux, if_neg hx, firstOccsAux, if_neg (fun hc => hx ((h x).mpr hc))]
      refine congrArg (x :: ·) (ih _ _ ?_)
      intro z
      simp only [List.mem_cons]
      exact or_congr Iff.rfl (h z)

theorem mem_firstOccsAux (x : String) (l : List String) :
    ∀ seen, x ∈ firstOccsAux seen l → x ∈ l := by
  induction l with
  | nil => intro seen h; simp [firstOccsAux] at h
  | cons y ys ih =>
    intro seen h
    by_cases hy : y ∈ seen
    · rw [firstOccsAux, if_pos hy] at h
      exact List.mem_cons_of_mem y (ih seen h)
    · rw [firstOccsAux, if_neg hy] at h
      rcases List.mem_cons.mp h with rfl | h2
      · exact List.mem_cons_self x ys
      · exact List.mem_cons_of_mem y (ih _ h2)

/-! ### Lemmas about the per-table score dict -/

theorem lookupQ_updScore_self (m : List (String × ℚ)) (t : String) (s : ℚ) :
    lookupQ (updScore m t s) t = some (max ((lookupQ m t).getD 0) s) := by
  induction m with
  | nil => simp [updScore, lookupQ]
  | cons p m ih =>
    rcases p with ⟨t', q⟩
    by_cases h : t' = t
    · subst h
      simp [updScore, lookupQ]
    · simp [updScore, lookupQ, h, ih]

theorem lookupQ_updScore_ne (m : List (String × ℚ)) (t t' : String) (s : ℚ)
    (h : t' ≠ t) : lookupQ (updScore m t s) t' = lookupQ m t' := by
  induction m with
  | nil => simp [updScore, lookupQ, Ne.symm h]
  | cons p m ih =>
    rcases p with ⟨t'', q⟩
    by_cases h2 : t'' = t
    · subst h2
      simp [updScore, lookupQ, Ne.symm h]
    · by_cases h3 : t'' = t'
      · subst h3
        simp [updScore, lookupQ, h2]
      · simp [updScore, lookupQ, h2, h3, ih]

theorem map_fst_updScore (m : List (String × ℚ)) (t : String) (s : ℚ) :
    (updScore m t s).map Prod.fst =
      if t ∈ m.map Prod.fst then m.map Prod.fst else m.map Prod.fst ++ [t] := by
  induction m with
  | nil => simp [updScore]
  | cons p m ih =>
    rcases p with ⟨t', q⟩
    by_cases h : t' = t
    · subst h
      simp [updScore]
    · have hmem : (t ∈ t' :: m.map Prod.fst) ↔ t ∈ m.map Prod.fst :=
        ⟨fun hc => (List.mem_cons.mp hc).resolve_left (Ne.symm h),
         List.mem_cons_of_mem t'⟩
      simp only [updScore, if_neg h, List.map_cons, ih]
      by_cases hm : t ∈ m.map Prod.fst
      · rw [if_pos hm, if_pos (hmem.mpr hm)]
      · rw [if_neg hm, if_neg (fun hc => hm (hmem.mp hc)), List.cons_append]

/-! ### The table score dict characterised -/

theorem foldlUpd_lookup (cols : List ColumnRecord) :
    ∀ (m : List (String × ℚ)) (t : String) (q : ℚ),
      lookupQ (cols.foldl (fun m c => updScore m (tidOf c) c.score) m) t = some q →
      q = (scoresOf cols t).foldl max ((lookupQ m t).getD 0) := by
  induction cols with
  | nil =>
    intro m t q h
    simp only [List.foldl_nil] at h
    simp [scoresOf, h]
  | cons c cs ih =>
    intro m t q h
    simp only [List.foldl_cons] at h
    by_cases hc : tidOf c = t
    · subst hc
      have h2 := ih (updScore m (tidOf c) c.score) (tidOf c) q h
      rw [lookupQ_updScore_self] at h2
      simpa [scoresOf, List.filter_cons, List.foldl_cons] using h2
    · have h2 := ih (updScore m (tidOf c) c.score) t q h
      rw [lookupQ_updScore_ne m (tidOf c) t c.score (fun e => hc e.symm)] at h2
      simpa [scoresOf, List.filter_cons, hc] using h2

theorem tableScores_lookup (cols : List ColumnRecord) (t : String) (q : ℚ)
    (h : lookupQ (tableScores cols) t = some q) :
    q = (scoresOf cols t).foldl max 0 := by
  have := foldlUpd_lookup cols [] t q h
  simpa [lookupQ] using this

theorem foldlUpd_keys (cols : List ColumnRecord) :
    ∀ m : List (String × ℚ),
      (cols.foldl (fun m c => updScore m (tidOf c) c.score) m).map Prod.fst =
        m.map Prod.fst ++ firstOccsAux (m.map Prod.fst) (cols.map tidOf) := by
  induction cols with
  | nil => intro m; simp [firstOccsAux]
  | cons c cs ih =>
    intro m
    simp only [List.foldl_cons, List.map_cons]
    rw [ih (updScore m (tidOf c) c.score), map_fst_updScore]
    by_cases hm : tidOf c ∈ m.map Prod.fst
    · rw [if_pos hm, firstOccsAux, if_pos hm]
    · rw [if_neg hm, firstOccsAux, if_neg hm]
      rw [firstOccsAux_congr (m.map Prod.fst ++ [tidOf c]) (tidOf c :: m.map Prod.fst)
        (by intro z; simp [List.mem_append, List.mem_cons, or_comm]) (cs.map tidOf)]
      simp [List.append_assoc]

theorem tableScores_keys (cols : List ColumnRecord) :
    (tableScores cols).map Prod.fst = firstOccs (cols.map tidOf) := by
  have := foldlUpd_keys cols []
  simpa [firstOccs] using this

/-! ### Claim C5: table_selection -/

/-- Sample column whose only score is negative: the running maximum of
`table_selection` starts from the dict default 0.0 and hides it. -/
def cNegT1 : ColumnRecord := ⟨1, -3, "s.T1", "s", "T1", "text one"⟩

/-- Second sample column, also negative but better than `cNegT1`. -/
def cNegT2 : ColumnRecord := ⟨2, -1, "s.T2", "s", "T2", "text two"⟩

/-- Sample column with a positive score, for the witness. -/
def cPosT : ColumnRecord := ⟨1, 2, "s.T", "s", "T", "text"⟩

/-- C5 (counterexample): the aggregate assigned to a table is not the
maximum of its column scores once all of them are negative — the Python
running maximum starts from the `dict.get` default `0.0`, so a lone
column with score `-3` yields aggregate `0`, and the output order between
the two tables disagrees with the order of the true maxima. -/
theorem table_selection_neg_score_counterexample :
    lookupQ (tableScores [cNegT1, cNegT2]) "s.T1" = some 0 ∧
    specAggregate [cNegT1, cNegT2] "s.T1" = some (-3) ∧
    ((0 : ℚ) ≠ -3) ∧
    specAggregate [cNegT1, cNegT2] "s.T2" = some (-1) ∧
    table_selection [cNegT1, cNegT2] 1 = ["s.T1"] := by
  refine ⟨by decide, by decide, by decide, by decide, by decide⟩

/-- C5 (amended): `table_selection` assigns each table the aggregate
`max(0, column scores)` — the fold of `max` over the scores started at
the dict default 0 — returns at most `max_tables` identifiers, each the
table of some input column; the underlying pair list is sorted
descending by aggregate, ties are resolved stably (the filter at any
score value is preserved), and the dict keys are the first occurrences
of the input table identifiers in input order. -/
theorem table_selection_spec (cols : List ColumnRecord) (n : Nat) :
    (∀ t ∈ table_selection cols n, ∃ c ∈ cols, tidOf c = t) ∧
    (table_selection cols n).length ≤ n ∧
    (∀ t q, lookupQ (tableScores cols) t = some q →
      q = (scoresOf cols t).foldl max 0) ∧
    (sortDescBy Prod.snd (tableScores cols)).Pairwise (fun a b => b.2 ≤ a.2) ∧
    (∀ q : ℚ,
      (sortDescBy Prod.snd (tableScores cols)).filter (fun p => decide (p.2 = q)) =
        (tableScores cols).filter (fun p => decide (p.2 = q))) ∧
    (tableScores cols).map Prod.fst = firstOccs (cols.map tidOf) := by
  refine ⟨?_, ?_, ?_, ?_, ?_, ?_⟩
  · intro t ht
    rcases List.mem_map.mp ht with ⟨p, hp, rfl⟩
    have hp2 : p ∈ sortDescBy Prod.snd (tableScores cols) :=
      List.take_subset n _ hp
    have hp3 : p ∈ tableScores cols := (mem_sortDescBy Prod.snd p _).mp hp2
    have hp4 : p.1 ∈ (tableScores cols).map Prod.fst :=
      List.mem_map_of_mem Prod.fst hp3
    rw [tableScores_keys] at hp4
    have hp5 : p.1 ∈ cols.map tidOf := mem_firstOccsAux p.1 _ [] hp4
    rcases List.mem_map.mp hp5 with ⟨c, hc, hct⟩
    exact ⟨c, hc, hct⟩
  · rw [table_selection, List.length_map, List.length_take]
    exact min_le_left _ _
  · intro t q h
    exact tableScores_lookup cols t q h
  · exact sorted_sortDescBy Prod.snd _
  · intro q
    exact filter_sortDescBy Prod.snd q _
  · exact tableScores_keys cols

/-- Witness for C5 at a concrete input with a positive score. -/
theorem table_selection_spec_witness :
    (∃ c ∈ [cPosT], tidOf c = "s.T") ∧
    (table_selection [cPosT] 1).length ≤ 1 ∧
    (2 : ℚ) = (scoresOf [cPosT] "s.T").foldl max 0 :=
  ⟨(table_selection_spec [cPosT] 1).1 "s.T" (by decide),
   (table_selection_spec [cPosT] 1).2.1,
   (table_selection_spec [cPosT] 1).2.2.1 "s.T" 2 (by decide)⟩

/-! ### Claim C8: final_column_filtering -/

/-- Every stored column carries the table identifier of its bucket. -/
def TidOk (m : List (String × List ColumnRecord)) : Prop :=
  ∀ p ∈ m, ∀ c ∈ p.2, tidOf c = p.1

theorem appendCol_keys (m : List (String × List ColumnRecord)) (t : String)
    (c : ColumnRecord) : (appendCol m t c).map Prod.fst = m.map Prod.fst := by
  induction m with
  | nil => rfl
  | cons p m ih =>
    rcases p with ⟨t', l⟩
    by_cases h : t' = t
    · simp [appendCol, h]
    · simp [appendCol, h, ih]

theorem appendCol_tidOk (m : List (String × List ColumnRecord)) (c : ColumnRecord)
    (h : TidOk m) : TidOk (appendCol m (tidOf c) c) := by
  induction m with
  | nil => intro p hp; simp [appendCol] at hp
  | cons p0 m ih =>
    rcases p0 with ⟨t', l⟩
    by_cases he : t' = tidOf c
    · rw [appendCol, if_pos he]
      intro p hp
      rcases List.mem_cons.mp hp with rfl | hp2
      · intro c' hc'
        rcases List.mem_append.mp hc' with hc2 | hc2
        · exact h (t', l) (List.mem_cons_self _ _) c' hc2
        · rw [List.mem_singleton.mp hc2, he]
      · exact h p (List.mem_cons_of_mem _ hp2)
    · rw [appendCol, if_neg he]
      intro p hp
      rcases List.mem_cons.mp hp with rfl | hp2
      · exact h _ (List.mem_cons_self _ _)
      · exact ih (fun p' hp' => h p' (List.mem_cons_of_mem _ hp')) p hp2

theorem foldlAppend_keys (selected : List String) (cols : List ColumnRecord) :
    ∀ m : List (String × List ColumnRecord),
      ((cols.foldl (fun m c => if tidOf c ∈ selected then appendCol m (tidOf c) c else m) m).map
        Prod.fst) = m.map Prod.fst := by
  induction cols with
  | nil => intro m; rfl
  | cons c cs ih =>
    intro m
    simp only [List.foldl_cons]
    by_cases h : tidOf c ∈ selected
    · rw [if_pos h, ih, appendCol_keys]
    · rw [if_neg h, ih]

theorem foldlAppend_tidOk (selected : List String) (cols : List ColumnRecord) :
    ∀ m : List (String × List ColumnRecord), TidOk m →
      TidOk (cols.foldl (fun m c => if tidOf c ∈ selected then appendCol m (tidOf c) c else m) m) := by
  induction cols with
  | nil => intro m hm; exact hm
  | cons c cs ih =>
    intro m hm
    simp only [List.foldl_cons]
    by_cases h : tidOf c ∈ selected
    · rw [if_pos h]
      exact ih _ (appendCol_tidOk m c hm)
    · rw [if_neg h]
      exact ih _ hm

/-- C8 (counterexample): when the selected-table list repeats a table,
the result keys are the deduplicated list, not the given list — the dict
comprehension collapses duplicates. -/
theorem final_column_filtering_dup_counterexample :
    (final_column_filtering [] ["a.t", "a.t"] 1).map Prod.fst = ["a.t"] ∧
    (["a.t"] : List String) ≠ ["a.t", "a.t"] := by
  refine ⟨by decide, by decide⟩

/-- C8 (amended): the keys of the result are the selected tables with
duplicates removed (first occurrences, in the given order); every stored
column belongs to the table of its key, every bucket is sorted descending
by score, and no bucket exceeds `max_cols_per_table`. -/
theorem final_column_filtering_spec (cols : List ColumnRecord)
    (selected : List String) (k : Nat) :
    ((final_column_filtering cols selected k).map Prod.fst = firstOccs selected) ∧
    ∀ p ∈ final_column_filtering cols selected k,
      (∀ c ∈ p.2, tidOf c = p.1) ∧
      p.2.Pairwise (fun a b => b.score ≤ a.score) ∧
      p.2.length ≤ k := by
  constructor
  · rw [final_column_filtering]
    simp only [List.map_map]
    have : (Prod.fst ∘ fun p : String × List ColumnRecord =>
        (p.1, (sortDescBy ColumnRecord.score p.2).take k)) = Prod.fst := rfl
    rw [this, foldlAppend_keys, List.map_map]
    have h2 : (Prod.fst ∘ fun t : String => (t, ([] : List ColumnRecord))) = id := rfl
    rw [h2, List.map_id]
  · intro p hp
    rw [final_column_filtering] at hp
    rcases List.mem_map.mp hp with ⟨p0, hp0, rfl⟩
    have hbase : TidOk (cols.foldl
        (fun m c => if tidOf c ∈ selected then appendCol m (tidOf c) c else m)
        ((firstOccs selected).map fun t => (t, ([] : List ColumnRecord)))) := by
      refine foldlAppend_tidOk selected cols _ ?_
      intro p hp c hc
      rcases List.mem_map.mp hp with ⟨t, _, rfl⟩
      simp at hc
    refine ⟨?_, ?_, ?_⟩
    · intro c hc
      have hc2 : c ∈ sortDescBy ColumnRecord.score p0.2 := List.take_subset k _ hc
      have hc3 : c ∈ p0.2 := (mem_sortDescBy ColumnRecord.score c _).mp hc2
      exact hbase p0 hp0 c hc3
    · exact List.Pairwise.sublist (List.take_sublist _ _) (sorted_sortDescBy ColumnRecord.score p0.2)
    · rw [List.length_take]
      exact min_le_left _ _

/-- Sample column for the C8 witness. -/
def cPosW : ColumnRecord := ⟨1, 2, "s.T", "s", "T", "w"⟩

/-- Witness for C8 at a concrete input. -/
theorem final_column_filtering_spec_witness :
    ((final_column_filtering [cPosW] ["s.T"] 3).map Prod.fst = firstOccs ["s.T"]) ∧
    tidOf cPosW = "s.T" ∧
    (("s.T", [cPosW]) : String × List ColumnRecord).2.length ≤ 3 :=
  ⟨(final_column_filtering_spec [cPosW] ["s.T"] 3).1,
   ((final_column_filtering_spec [cPosW] ["s.T"] 3).2 ("s.T", [cPosW]) (by decide)).1
     cPosW (by decide),
   ((final_column_filtering_spec [cPosW] ["s.T"] 3).2 ("s.T", [cPosW]) (by decide)).2.2⟩

/-! ### Claim C4: the validator is total and converts exceptions -/

theorem addError_errors_ne_nil (r : ValidationResult) (msg : String) :
    (addError r msg).errors ≠ [] := by
  simp [addError]

theorem step_inv (r : ValidationResult) (c : Prop) [Decidable c] (msg : String)
    (hr : r.is_valid = false → r.errors ≠ []) :
    (if c then r else addError r msg).is_valid = false →
      (if c then r else addError r msg).errors ≠ [] := by
  by_cases hc : c
  · rw [if_pos hc]; exact hr
  · rw [if_neg hc]; intro _; exact addError_errors_ne_nil r msg

theorem validationFold_inv {α : Type} (f : ValidationResult → α → ValidationResult)
    (hf : ∀ r a, f r a = r ∨ ∃ msg, f r a = addError r msg) :
    ∀ (l : List α) (r : ValidationResult),
      (r.is_valid = false → r.errors ≠ []) →
      ((l.foldl f r).is_valid = false → (l.foldl f r).errors ≠ []) := by
  intro l
  induction l with
  | nil => intro r hr; exact hr
  | cons a as ih =>
    intro r hr
    simp only [List.foldl_cons]
    refine ih (f r a) ?_
    rcases hf r a with h | ⟨msg, h⟩
    · rw [h]; exact hr
    · rw [h]; intro _; exact addError_errors_ne_nil r msg

theorem checkTableRef_cases (tables : List String) (r : ValidationResult) (t : String) :
    checkTableRef tables r t = r ∨
      ∃ msg, checkTableRef tables r t = addError r msg := by
  simp only [checkTableRef]
  by_cases hc : (tables.filter fun kt =>
      hasSub (pyLower kt).data (pyLower (pyStrip (pyReplace t "dbo." ""))).data).isEmpty
  · right
    exact ⟨_, by rw [if_pos hc]⟩
  · left
    rw [if_neg hc]

/-- An invalid validation result always carries at least one error: the
initial result is valid, and every site that clears the flag appends an
error message in the same step. -/
theorem validate_errors_nonempty (sqlQuery schemaText : String)
    (h : (validate_sql_against_schema sqlQuery schemaText).is_valid = false) :
    (validate_sql_against_schema sqlQuery schemaText).errors ≠ [] := by
  simp only [validate_sql_against_schema, catchValidation, validateBody] at h ⊢
  revert h
  refine step_inv _ _ _ (step_inv _ _ _ (validationFold_inv _ ?_ _ _ ?_))
  · intro r t
    exact checkTableRef_cases _ r t
  · intro hh
    exact absurd hh (by decide)

/-- C4: `validate_sql_against_schema` is total — it is the exception-
catching wrapper around the straight-line body, the wrapper turns any
raised exception into a single error entry with `is_valid = false`, and
every invalid result carries at least one error. -/
theorem validate_sql_total (sqlQuery schemaText : String) :
    validate_sql_against_schema sqlQuery schemaText =
      catchValidation (validateBody sqlQuery schemaText) ∧
    (∀ (b : Except String ValidationResult) (e : String), b = Except.error e →
      catchValidation b = ⟨false, ["Validation error: " ++ e], []⟩) ∧
    ((validate_sql_against_schema sqlQuery schemaText).is_valid = false →
      (validate_sql_against_schema sqlQuery schemaText).errors ≠ []) := by
  refine ⟨rfl, ?_, validate_errors_nonempty sqlQuery schemaText⟩
  intro b e hb
  rw [hb]
  rfl

/-- Witness for C4 at a concrete invalid query and a concrete exception. -/
theorem validate_sql_total_witness :
    validate_sql_against_schema "SELECT * FROM T1" "" =
      catchValidation (validateBody "SELECT * FROM T1" "") ∧
    catchValidation (Except.error "boom") =
      ⟨false, ["Validation error: " ++ "boom"], []⟩ ∧
    (validate_sql_against_schema "SELECT * FROM T1" "").errors ≠ [] :=
  ⟨(validate_sql_total "SELECT * FROM T1" "").1,
   (validate_sql_total "SELECT * FROM T1" "").2.1 (Except.error "boom") "boom" rfl,
   (validate_sql_total "SELECT * FROM T1" "").2.2 (by decide)⟩

/-! ### Claim C6: the truncation boundary of build_chess_schema_block -/

/-- C6: a column text of exactly `max_char_per_table` characters is
emitted unmodified by `build_chess_schema_block` (first two conjuncts),
and a text one character longer takes the truncation branch: the
marker-preserving recombination when it contains `Columns:`, otherwise
the hard truncation to the budget with the appended notice. -/
theorem truncation_boundary (maxc : Nat) (tid : String) (r : ColumnRecord) (s : String) :
    (r.text.length = maxc →
      build_chess_schema_block [(tid, [r])] maxc =
        pyRstrip (joinNl ["Table " ++ tid ++ ":", r.text, ""])) ∧
    (s.length = maxc → truncateTableText maxc s = s) ∧
    (s.length = maxc + 1 →
      (pyContains s columnsMarker = true →
        truncateTableText maxc s = markerRecombine maxc s) ∧
      (pyContains s columnsMarker = false →
        truncateTableText maxc s = pyTakeNat s maxc ++ truncNoticeShort)) := by
  refine ⟨?_, ?_, ?_⟩
  · intro h
    have hne : ¬ r.text.length > maxc := by rw [h]; exact lt_irrefl maxc
    rw [build_chess_schema_block]
    simp only [List.foldl_cons, List.foldl_nil, List.map_cons, List.map_nil,
      List.nil_append, List.cons_append, List.singleton_append]
    rw [truncateTableText, if_neg hne]
  · intro h
    have hne : ¬ s.length > maxc := by rw [h]; exact lt_irrefl maxc
    rw [truncateTableText, if_neg hne]
  · intro h
    have hgt : s.length > maxc := by rw [h]; exact Nat.lt_succ_self maxc
    constructor
    · intro hc
      rw [truncateTableText, if_pos hgt, if_pos hc]
    · intro hc
      rw [truncateTableText, if_pos hgt, if_neg (by rw [hc]; exact Bool.false_ne_true)]

/-- Witness for C6 at the boundary lengths 3 and 4. -/
theorem truncation_boundary_witness :
    truncateTableText 3 "abc" = "abc" ∧
    truncateTableText 3 "abcd" = pyTakeNat "abcd" 3 ++ truncNoticeShort ∧
    build_chess_schema_block [("dbo.t", [⟨1, 0, "dbo.t", "dbo", "t", "abc"⟩])] 3 =
      pyRstrip (joinNl ["Table " ++ "dbo.t" ++ ":",
        (⟨1, 0, "dbo.t", "dbo", "t", "abc"⟩ : ColumnRecord).text, ""]) :=
  ⟨(truncation_boundary 3 "t" ⟨1, 0, "", "", "", ""⟩ "abc").2.1 (by decide),
   ((truncation_boundary 3 "t" ⟨1, 0, "", "", "", ""⟩ "abcd").2.2 (by decide)).2 (by decide),
   (truncation_boundary 3 "dbo.t" ⟨1, 0, "dbo.t", "dbo", "t", "abc"⟩ "x").1 (by decide)⟩

/-! ### Claim C10: the tail after a second marker is dropped -/

theorem splitSub_of_not_found (s pat : List Char)
    (h : firstIdxOfSub pat s = none) : splitSub s pat = [s] := by
  rw [splitSub, splitSubAux, h]

/-- C10: when an over-budget column text contains the marker at least
twice and the section from the first marker to the second fits in the
budget minus 100, the rendered text is assembled from the part before the
first marker and the part between the two markers only — everything at
and after the second marker is dropped (the result does not depend on
`rest` at all). -/
theorem marker_tail_dropped (maxc : Nat) (text a b : String) (rest : List String)
    (hsplit : pySplit text columnsMarker = a :: b :: rest)
    (_hrest : rest ≠ [])
    (hlen : text.length > maxc)
    (hfit : ((columnsMarker ++ b).length : Int) ≤ (maxc : Int) - 100) :
    truncateTableText maxc text =
      (if a.length > 100 then pyTakeNat a 100 ++ "..." else a) ++ "\n"
        ++ (columnsMarker ++ b) := by
  have hcont : pyContains text columnsMarker = true := by
    rw [pyContains, hasSub]
    cases hidx : firstIdxOfSub columnsMarker.data text.data with
    | some i => rfl
    | none =>
      exfalso
      have hone : pySplit text columnsMarker = [text] := by
        rw [pySplit, splitSub_of_not_found _ _ hidx]
        rfl
      rw [hone] at hsplit
      have hl := congrArg List.length hsplit
      simp [List.length_cons] at hl
  rw [truncateTableText, if_pos hlen, if_pos hcont]
  rw [markerRecombine, hsplit]
  simp only []
  rw [if_pos hfit]

/-- Concrete header for the C10 witness: 110 repeated characters. -/
def c10Header : String := ⟨List.replicate 110 'x'⟩

/-- Concrete over-budget text with two markers for the C10 witness. -/
def c10Text : String := c10Header ++ columnsMarker ++ "b" ++ columnsMarker ++ "cc"

set_option maxRecDepth 16384 in
/-- Witness for C10 at a concrete double-marker text. -/
theorem marker_tail_dropped_witness :
    truncateTableText 120 c10Text =
      (if c10Header.length > 100 then pyTakeNat c10Header 100 ++ "..." else c10Header)
        ++ "\n" ++ (columnsMarker ++ "b") :=
  marker_tail_dropped 120 c10Text c10Header "b" ["cc"]
    (by decide) (by decide) (by decide) (by decide)

/-! ### Claim C7: the extractor policy -/

/-- Whether some line of the text has a stripped form starting with
`SELECT` up to case: the trigger of the extractor line scan. -/
def hasSelectLine (s : List Char) : Bool :=
  (splitNl s).any isSelectStart

theorem collectSql_eq_nil_iff (lines : List (List Char)) :
    collectSql lines false = [] ↔ lines.any isSelectStart = false := by
  induction lines with
  | nil => simp [collectSql]
  | cons l ls ih =>
    by_cases h : isSelectStart l
    · simp [collectSql, h]
    · simp [collectSql, h, ih]

/-- C7: `extract_sql_from_response` is total and follows the three-stage
policy: the trimmed contents of the first closed sql fence when one
exists; otherwise the trimmed joined line run collected from the first
SELECT-starting line under the stop rule; otherwise — in particular for
prose with no SELECT line — the whole trimmed input. -/
theorem extract_sql_policy (response : String) :
    (∀ content, firstSqlBlock response.data = some content →
      extract_sql_from_response response = ⟨stripBoth content⟩) ∧
    (firstSqlBlock response.data = none → hasSelectLine response.data = true →
      extract_sql_from_response response =
        ⟨stripBoth (List.intercalate ['\n'] (collectSql (splitNl response.data) false))⟩) ∧
    (firstSqlBlock response.data = none → hasSelectLine response.data = false →
      extract_sql_from_response response = ⟨stripBoth response.data⟩) := by
  refine ⟨?_, ?_, ?_⟩
  · intro content h
    rw [extract_sql_from_response, h]
  · intro h1 h2
    rw [extract_sql_from_response, h1]
    cases hc : collectSql (splitNl response.data) false with
    | nil =>
      exfalso
      have h3 := (collectSql_eq_nil_iff (splitNl response.data)).mp hc
      rw [hasSelectLine, h3] at h2
      exact Bool.false_ne_true h2
    | cons x xs =>
      rfl
  · intro h1 h2
    have hc : collectSql (splitNl response.data) false = [] :=
      (collectSql_eq_nil_iff _).mpr h2
    rw [extract_sql_from_response, h1, hc]

/-- Witness for C7: one sample through each of the three stages. -/
theorem extract_sql_policy_witness :
    extract_sql_from_response "```sql\nSELECT 1\n```" = "SELECT 1" ∧
    extract_sql_from_response "intro\nSELECT * FROM T;\nafter" = "SELECT * FROM T;" ∧
    extract_sql_from_response "no structured query in this prose" =
      "no structured query in this prose" :=
  ⟨((extract_sql_policy "```sql\nSELECT 1\n```").1 ("\nSELECT 1\n").data
      (by decide)).trans (by decide),
   (((extract_sql_policy "intro\nSELECT * FROM T;\nafter").2.1
      (by decide) (by decide)).trans (by decide)),
   (((extract_sql_policy "no structured query in this prose").2.2
      (by decide) (by decide)).trans (by decide))⟩

/-! ### Claims C1, C2, C3: the repair loop -/

/-- An always-invalid completion gateway: every call returns SQL that
references a table no schema declares. -/
def oracleQQ : Nat → String := fun _ => "SELECT * FROM QQ"

/-- A gateway whose generations and repairs are pairwise distinct, to
observe which text each VALIDATE step sees. Even calls are generations,
odd calls are repairs (in the call order the code produces). -/
def oracleFix : Nat → String := fun n =>
  match n with
  | 0 => "SELECT * FROM AA"
  | 1 => "FIXED0"
  | 2 => "SELECT * FROM BB"
  | 3 => "FIXED1"
  | _ => "SELECT * FROM CC"

/-- C1 (code bug, evaluated): against an empty schema with
`max_attempts = 3`, the repair call of attempt 0 returns `FIXED0`, but
the SQL validated at attempt 1 is the extraction of a fresh generation,
`SELECT * FROM BB` — the loop head overwrites the repaired query before
any validation sees it. -/
theorem repair_output_discarded :
    (generate_sql_from_question oracleFix "" 3).map
        (fun r => (r.validated, r.repairs, r.valid)) =
      some (["SELECT * FROM AA", "SELECT * FROM BB", "SELECT * FROM CC"],
        ["FIXED0", "FIXED1"], false) ∧
    ("SELECT * FROM BB" : String) ≠ "FIXED0" := by
  refine ⟨by decide, by decide⟩

/-- C2 (code bug, evaluated): with `max_attempts = 3` and an
always-invalid gateway the loop makes 5 completion calls (3 generations
and 2 repair calls), not 3, before returning exhausted. -/
theorem completion_call_count_is_five :
    (generate_sql_from_question oracleQQ "" 3).map (fun r => (r.calls, r.valid)) =
      some (5, false) ∧ (5 : Nat) ≠ 3 := by
  refine ⟨by decide, by decide⟩

/-- C3 (counterexample): on exhaustion the value delivered to the caller
is the pair of the last raw completion and last extracted SQL; the
validation errors are not part of it — here the error text appears in
neither component. -/
theorem exhausted_errors_not_returned :
    (generate_sql_from_question oracleQQ "" 3).map
        (fun r => (r.raw, r.extracted, r.lastErrors, r.valid)) =
      some ("SELECT * FROM QQ", "SELECT * FROM QQ",
        ["Table \x27QQ\x27 not found in provided schema"], false) ∧
    pyContains "SELECT * FROM QQ" "not found" = false ∧
    ("SELECT * FROM QQ" : String) ≠ "Table \x27QQ\x27 not found in provided schema" := by
  refine ⟨by decide, by decide, by decide⟩

theorem genAux_exhausted (oracle : Nat → String) (schemaText : String) :
    ∀ (fuel calls : Nat) (vtrace rtrace : List String) (r : GenResult),
      genAux oracle schemaText fuel calls vtrace rtrace = some r →
      r.valid = false →
      r.raw = oracle (r.calls - 1) ∧
      r.extracted = extract_sql_from_response r.raw ∧
      r.lastErrors = (validate_sql_against_schema r.extracted schemaText).errors ∧
      r.lastErrors ≠ [] := by
  intro fuel
  induction fuel with
  | zero =>
    intro calls vt rt r h
    exact absurd h (by simp [genAux])
  | succ fuel ih =>
    intro calls vt rt r h hval
    rw [genAux] at h
    by_cases hv : (validate_sql_against_schema
        (extract_sql_from_response (oracle calls)) schemaText).is_valid
    · rw [if_pos hv] at h
      cases h
      exact absurd hval (by simp)
    · rw [if_neg hv] at h
      by_cases hf : fuel = 0
      · rw [if_pos hf] at h
        cases h
        refine ⟨by simp, rfl, rfl, ?_⟩
        exact validate_errors_nonempty _ _ (Bool.not_eq_true _ ▸ hv)
      · rw [if_neg hf] at h
        exact ih _ _ _ r h hval

/-- C3 (amended): whenever the loop returns in the exhausted state, the
delivered pair consists of the raw text of the last completion call and
its extraction; the errors of the final validation are printed by the
code but are not part of the returned value — they are recoverable from
the returned SQL only by re-validating, and they are never empty. -/
theorem generate_sql_exhausted_return (oracle : Nat → String) (schemaText : String)
    (n : Nat) (r : GenResult)
    (h : generate_sql_from_question oracle schemaText n = some r)
    (hval : r.valid = false) :
    r.raw = oracle (r.calls - 1) ∧
    r.extracted = extract_sql_from_response r.raw ∧
    r.lastErrors = (validate_sql_against_schema r.extracted schemaText).errors ∧
    r.lastErrors ≠ [] :=
  genAux_exhausted oracle schemaText n 0 [] [] r h hval

/-- The concrete exhausted run of `oracleQQ`, for the C3 witness. -/
def rQQ : GenResult :=
  ⟨"SELECT * FROM QQ", "SELECT * FROM QQ", 5,
   ["SELECT * FROM QQ", "SELECT * FROM QQ", "SELECT * FROM QQ"],
   ["SELECT * FROM QQ", "SELECT * FROM QQ"],
   ["Table \x27QQ\x27 not found in provided schema"], false⟩

/-- Witness for the amended C3 at the concrete exhausted run. -/
theorem generate_sql_exhausted_return_witness :
    rQQ.raw = oracleQQ (rQQ.calls - 1) ∧
    rQQ.extracted = extract_sql_from_response rQQ.raw ∧
    rQQ.lastErrors = (validate_sql_against_schema rQQ.extracted "").errors ∧
    rQQ.lastErrors ≠ [] :=
  generate_sql_exhausted_return oracleQQ "" 3 rQQ (by decide) (by decide)

/-! ### Claim C9: under-filled search results in column_filtering -/

/-- First metadata entry for the C9 evaluation. -/
def metaA : MetaEntry := ⟨"dbo.A", "dbo", "A", "Table dbo.A"⟩

/-- Second (and last) metadata entry for the C9 evaluation. -/
def metaB : MetaEntry := ⟨"dbo.B", "dbo", "B", "Table dbo.B"⟩

/-- C9 (code bug, evaluated): when the index returns fewer hits than
requested and pads `I[0]` with the sentinel `-1`, the loop does not
raise: Python resolves `column_meta[-1]` to the last metadata entry, so
the output contains a record fabricated from `metaB`, which no search
hit matched. -/
theorem column_filtering_negative_index_fabricates :
    column_filtering [metaA, metaB] [1, 0] [0, -1] =
      some [⟨1, 1, "dbo.A", "dbo", "A", "Table dbo.A"⟩,
        ⟨2, 0, "dbo.B", "dbo", "B", "Table dbo.B"⟩] ∧
    column_filtering [metaA, metaB] [1, 0] [0, -1] ≠ none := by
  refine ⟨by decide, by decide⟩
